import Mathlib

/-!
# Verification of `setuppy2cfg.py`

A shallow embedding of the single-module tool `src/setuppy2cfg.py`, which walks
the AST of a `setup.py` file, locates the `setup(...)` call, resolves each
keyword argument to a value, accumulates an in-memory configuration model, and
renders it either in the flat `setup.cfg` format (`SetupCfgWalker`) or hands it
to a TOML renderer (`PyProjectTomlWalker`).

Modelling conventions:
* Python literal values (`ast.literal_eval` results) are `PyVal`.  Dict keys are
  modelled as strings (the tool's domain: `project_urls`, `entry_points`, ... all
  use string keys); tuples are folded into `PyVal.list`; float literals do not
  occur in any property considered here and are omitted.
* An AST expression node is `Expr`; each constructor carries the node's source
  segment (`ast.get_source_segment`).  `Expr.lit src v` stands for any
  expression on which `ast.literal_eval` succeeds with value `v`; `Expr.name`
  is a bare `ast.Name`; `Expr.call` a call node; `Expr.other` any other node
  (on which `literal_eval` raises).
* Python exceptions are `Except String`; the exception's `str()` is the string.
  Since Python mutates `self.output` in place, a step that can raise returns
  the (possibly partially mutated) state *together with* the `Except` result.
* Python `dict` insertion order is modelled by association lists where
  assignment to an existing key updates it in place and a new key is appended.
* `warn(msg)` (module level) prints to stderr only; `self.warn(msg)` prints to
  stderr *and* appends to `self.warnings`.  Both channels are recorded in the
  walker state.
-/

namespace Setuppy2Cfg

/-- A Python literal value, as produced by `ast.literal_eval`. -/
inductive PyVal where
  | none
  | bool (b : Bool)
  | int (n : Int)
  | str (s : String)
  | list (xs : List PyVal)
  | dict (kvs : List (String × PyVal))

/-- Python truthiness (`if value:`). -/
def pyTruthy : PyVal → Bool
  | .none => false
  | .bool b => b
  | .int n => n != 0
  | .str s => s != ""
  | .list xs => !xs.isEmpty
  | .dict kvs => !kvs.isEmpty

mutual
/-- Python `repr()` of a literal value.  String quoting is simplified to plain
single quotes (escaping of quotes inside the string is elided). -/
def pyRepr : PyVal → String
  | .none => "None"
  | .bool b => if b then "True" else "False"
  | .int n => toString n
  | .str s => "'" ++ s ++ "'"
  | .list xs => "[" ++ String.intercalate ", " (pyReprList xs) ++ "]"
  | .dict kvs => "\x7b" ++ String.intercalate ", " (pyReprDict kvs) ++ "\x7d"

def pyReprList : List PyVal → List String
  | [] => []
  | v :: vs => pyRepr v :: pyReprList vs

def pyReprDict : List (String × PyVal) → List String
  | [] => []
  | (k, v) :: kvs => ("'" ++ k ++ "': " ++ pyRepr v) :: pyReprDict kvs
end

/-- Python `str()` of a literal value (`str` is the identity on strings and
agrees with `repr` on everything else). -/
def pyStr : PyVal → String
  | .str s => s
  | v => pyRepr v

/-- Python `list(value)`: succeeds on strings (list of one-character strings),
lists and dicts (list of keys); raises `TypeError` on the rest. -/
def pyListOf : PyVal → Except String (List PyVal)
  | .str s => .ok (s.data.map (fun c => .str (String.mk [c])))
  | .list xs => .ok xs
  | .dict kvs => .ok (kvs.map (fun kv => .str kv.1))
  | v => .error ("TypeError: " ++ pyRepr v ++ " object is not iterable")

/-- An AST expression node.  Each constructor carries the node's source text
(`ast.get_source_segment`).  `lit` abstracts any expression on which
`ast.literal_eval` succeeds. -/
inductive Expr where
  | lit (src : String) (v : PyVal)
  | name (src : String)
  | call (src : String) (funcSrc : String) (args : List Expr)
      (kwargs : List (String × Expr))
  | other (src : String)

/-- `Walker.get_source_segment` applied to a node. -/
def getSourceSegment : Expr → String
  | .lit src _ => src
  | .name src => src
  | .call src _ _ _ => src
  | .other src => src

/-- `ast.literal_eval` on a node.  Raises `ValueError` on names, calls and
anything else that is not a literal (Python's message prints the AST node
repr; we summarise it with the node's source text). -/
def literalEval (e : Expr) : Except String PyVal :=
  match e with
  | .lit _ v => .ok v
  | e => .error ("malformed node or string: " ++ getSourceSegment e)

/-- Python `str.endswith`, modelled as a suffix test on the character list. -/
def strEndsWith (s suffix : String) : Bool := suffix.data.isSuffixOf s.data

/-- `Walker.get_value`: a bare `ast.Name` becomes the `attr:`-prefixed token
built from its source text; everything else is `ast.literal_eval`ed. -/
def get_value (e : Expr) : Except String PyVal :=
  match e with
  | .name src => .ok (.str ("attr:" ++ src))
  | e => literalEval e

/-- `Walker.is_find_packages_call`: the node is a call whose callee source text
ends with `"find_packages"`. -/
def is_find_packages_call (e : Expr) : Bool :=
  match e with
  | .call _ funcSrc _ _ => strEndsWith funcSrc "find_packages"
  | _ => false

/-! ## Association lists with Python `dict` semantics -/

/-- Lookup in an insertion-ordered association list (`d.get(key)`). -/
def alLookup : List (String × α) → String → Option α
  | [], _ => Option.none
  | (k, v) :: rest, key => if k = key then some v else alLookup rest key

/-- Python dict assignment `d[key] = v`: an existing key is updated in place
(keeping its position), a new key is appended at the end. -/
def alInsert : List (String × α) → String → α → List (String × α)
  | [], key, v => [(key, v)]
  | (k, w) :: rest, key, v =>
    if k = key then (key, v) :: rest else (k, w) :: alInsert rest key v

/-- Python `d.pop(key, None)`, the removal part: drop the key, keeping the
order of the remaining entries. -/
def alErase : List (String × α) → String → List (String × α)
  | [], _ => []
  | (k, w) :: rest, key => if k = key then rest else (k, w) :: alErase rest key

/-- One section of the configuration model: field key → resolved value. -/
abbrev Row := List (String × PyVal)

/-- The configuration model `self.output`: section name → section row. -/
abbrev Model := List (String × Row)

/-- `self.output[sec][key] = value`; `self.output` is a `defaultdict(dict)`,
so a new section is created (at the end) on first assignment. -/
def modelInsert (m : Model) (sec key : String) (v : PyVal) : Model :=
  match alLookup m sec with
  | some row => alInsert m sec (alInsert row key v)
  | Option.none => m ++ [(sec, [(key, v)])]

/-! ## Walker state -/

/-- Walker state: the model plus the two diagnostic channels.  `warnings` is
`self.warnings`; `stderrLog` records every message printed to stderr (by the
module-level `warn` helper and by `Walker.warn`). -/
structure WState where
  output : Model
  warnings : List String
  stderrLog : List String

/-- `Walker.__init__`: empty model, no warnings. -/
def initState : WState := ⟨[], [], []⟩

/-- Module-level `warn(msg)`: prints to stderr only. -/
def WState.warnStderr (st : WState) (msg : String) : WState :=
  { st with stderrLog := st.stderrLog ++ [msg] }

/-- `Walker.warn(msg)`: prints to stderr and appends to `self.warnings`. -/
def WState.warnSelf (st : WState) (msg : String) : WState :=
  { st with warnings := st.warnings ++ [msg],
            stderrLog := st.stderrLog ++ [msg] }

/-! ## `find_packages` interpretation -/

/-- Parameter names of `setuptools.find_packages(where=".", exclude=(), include=("*",))`. -/
def findPackagesParams : List String := ["where", "exclude", "include"]

/-- `call_to_args(call, setuptools.find_packages)`: literal-evaluate every
positional argument, then every keyword argument, then bind them with
`inspect.signature(...).bind` and return the explicitly bound arguments
(defaults are not applied).  Keyword arguments of an AST call are unique, so
only positional/keyword collisions and unknown names can fail the bind. -/
def call_to_args (args : List Expr) (kwargs : List (String × Expr)) :
    Except String (List (String × PyVal)) := do
  let pos ← args.mapM literalEval
  let kws ← kwargs.mapM (fun kv => do
    let v ← literalEval kv.2
    pure (kv.1, v))
  if pos.length > findPackagesParams.length then
    throw "too many positional arguments"
  else
    let bound := findPackagesParams.zip pos
    kws.forM (fun kv =>
      if kv.1 ∈ bound.map Prod.fst then
        throw ("multiple values for argument '" ++ kv.1 ++ "'")
      else if kv.1 ∈ findPackagesParams then pure ()
      else throw ("got an unexpected keyword argument '" ++ kv.1 ++ "'"))
    pure (bound ++ kws)

/-- One `self.output["options.packages.find"][key] = list(value)` step of
`process_find_packages`, for `key ∈ {include, exclude}`; skipped when the
bound value is missing or falsy. -/
def findInsertStep (m : Model) (fpArgs : List (String × PyVal)) (key : String) :
    Model × Except String Unit :=
  match alLookup fpArgs key with
  | Option.none => (m, .ok ())
  | some v =>
    if pyTruthy v then
      match pyListOf v with
      | .error e => (m, .error e)
      | .ok xs => (modelInsert m "options.packages.find" key (.list xs), .ok ())
    else (m, .ok ())

/-- Python `where == "."` (equality of a literal value with the string `"."`). -/
def isDotString : PyVal → Bool
  | .str s => s = "."
  | _ => false

/-- `Walker.process_find_packages`: bind the call's arguments, reject a
non-default `where`, copy truthy `include`/`exclude` into the
`options.packages.find` section (in that order), and return the `"find:"`
directive.  Mutations made before an exception persist, so the (possibly
updated) model is returned alongside the result. -/
def process_find_packages (m : Model) (args : List Expr)
    (kwargs : List (String × Expr)) : Model × Except String PyVal :=
  match call_to_args args kwargs with
  | .error e => (m, .error e)
  | .ok fpArgs =>
    let wh := (alLookup fpArgs "where").getD (.str ".")
    if isDotString wh then
      match findInsertStep m fpArgs "include" with
      | (m1, .error e) => (m1, .error e)
      | (m1, .ok ()) =>
        match findInsertStep m1 fpArgs "exclude" with
        | (m2, .error e) => (m2, .error e)
        | (m2, .ok ()) => (m2, .ok (.str "find:"))
    else
      (m, .error ("Unable to process find_packages(where=" ++ pyRepr wh ++ ", ...)"))

/-! ## The two keyword processors -/

/-- `SetupCfgWalker.metadata_keys` (the shape-hint strings are carried over
from the source but never consumed by the program logic). -/
def metadata_keys : List (String × String) := [
  ("name", "str"), ("version", "attr:, file:, str"), ("url", "str"),
  ("download_url", "str"), ("project_urls", "dict"), ("author", "str"),
  ("author_email", "str"), ("maintainer", "str"), ("maintainer_email", "str"),
  ("classifiers", "file:, list-comma"), ("license", "str"),
  ("license_files", "list-comma"), ("description", "file:, str"),
  ("long_description", "file:, str"), ("long_description_content_type", "str"),
  ("keywords", "list-comma"), ("platforms", "list-comma"),
  ("provides", "list-comma"), ("requires", "list-comma"),
  ("obsoletes", "list-comma")]

/-- `SetupCfgWalker.options_keys`. -/
def options_keys : List (String × String) := [
  ("zip_safe", "bool"), ("setup_requires", "list-semi"),
  ("install_requires", "list-semi"), ("extras_require", "section"),
  ("python_requires", "str"), ("entry_points", "file:, section"),
  ("scripts", "list-comma"), ("eager_resources", "list-comma"),
  ("dependency_links", "list-comma"), ("tests_require", "list-semi"),
  ("include_package_data", "bool"),
  ("packages", "find:, find_namespace:, list-comma"),
  ("package_dir", "dict"), ("package_data", "section"),
  ("exclude_package_data", "section"), ("namespace_packages", "list-comma"),
  ("py_modules", "list-comma"), ("data_files", "section")]

/-- The `output_key` computation at the head of
`SetupCfgWalker.process_setup_keyword`: metadata keys first, then options. -/
def lookupOutputKey (arg : String) : Option (String × String) :=
  if (alLookup metadata_keys arg).isSome then some ("metadata", arg)
  else if (alLookup options_keys arg).isSome then some ("options", arg)
  else Option.none

/-- The tail of `SetupCfgWalker.process_setup_keyword`: insert the resolved
value, or propagate the resolution failure. -/
def insertValue (st : WState) (sec key : String) (r : Except String PyVal) :
    WState × Except String Unit :=
  match r with
  | .error e => (st, .error e)
  | .ok val => ({ st with output := modelInsert st.output sec key val }, .ok ())

/-- `SetupCfgWalker.process_setup_keyword`: classify the argument name (an
unmapped name warns to stderr and returns), special-case a
`find_packages(...)` value of the `packages` field, and otherwise insert
`get_value(kw.value)`. -/
def processSetupKeywordCfg (st : WState) (arg : String) (v : Expr) :
    WState × Except String Unit :=
  match lookupOutputKey arg with
  | Option.none => (st.warnStderr ("No output mapping for " ++ arg), .ok ())
  | some (sec, key) =>
    match v with
    | .call csrc funcSrc args kwargs =>
      if sec = "options" && key = "packages" && strEndsWith funcSrc "find_packages" then
        match process_find_packages st.output args kwargs with
        | (m, .error e) => ({ st with output := m }, .error e)
        | (m, .ok d) => ({ st with output := modelInsert m sec key d }, .ok ())
      else insertValue st sec key (get_value (.call csrc funcSrc args kwargs))
    | v => insertValue st sec key (get_value v)

/-- `PyProjectTomlWalker.process_setup_keyword`: no lookup-table check; every
argument's resolved value is inserted under the `"project"` section. -/
def processSetupKeywordToml (st : WState) (arg : String) (v : Expr) :
    WState × Except String Unit :=
  match get_value v with
  | .error e => (st, .error e)
  | .ok val =>
    ({ st with output := modelInsert st.output "project" arg val }, .ok ())

/-! ## The setup-call loop and the AST walk -/

/-- `textwrap.indent(s, pref)`: prefix every line that contains a
non-whitespace character (whitespace-only lines are left unchanged). -/
def pythonIndent (pref s : String) : String :=
  String.intercalate "\n"
    ((s.splitOn "\n").map (fun line => if line.trim = "" then line else pref ++ line))

/-- The diagnostic recorded by `process_setup_call` when processing the
keyword `arg` with value `v` raises `exc`. -/
def unableMsg (arg : String) (v : Expr) (exc : String) : String :=
  "Unable to get value for " ++ arg ++ ": " ++ exc ++ "\n"
    ++ pythonIndent "|  " (getSourceSegment v)

/-- One iteration of the loop in `Walker.process_setup_call`: process the
keyword; if it raises, record the diagnostic via `self.warn` and continue. -/
def setupCallStep (pk : WState → String → Expr → WState × Except String Unit)
    (st : WState) (kw : String × Expr) : WState :=
  match pk st kw.1 kw.2 with
  | (st', .ok ()) => st'
  | (st', .error e) => st'.warnSelf (unableMsg kw.1 kw.2 e)

/-- `Walker.process_setup_call`: process each keyword argument in source
order, isolating failures per field. -/
def process_setup_call (pk : WState → String → Expr → WState × Except String Unit)
    (st : WState) (kws : List (String × Expr)) : WState :=
  kws.foldl (setupCallStep pk) st

/-- A call node as seen by the visitor: the callee's source text and the
keyword arguments (`process_setup_call` reads only `node.keywords`;
positional arguments of the setup call are ignored by it). -/
structure CallNode where
  funcSrc : String
  kwargs : List (String × Expr)

/-- `Walker.visit_Call`: process the call iff its callee's source text ends
with `"setup"`. -/
def visit_Call (pk : WState → String → Expr → WState × Except String Unit)
    (st : WState) (c : CallNode) : WState :=
  if strEndsWith c.funcSrc "setup" then process_setup_call pk st c.kwargs else st

/-- The AST walk (`walker.visit(parsed)`), abstracted as the traversal-ordered
list of `ast.Call` nodes that `ast.NodeVisitor` dispatches to `visit_Call`
(the override does not call `generic_visit`, so it never recurses into a
call's children). -/
def runWalk (pk : WState → String → Expr → WState × Except String Unit)
    (calls : List CallNode) : WState :=
  calls.foldl (visit_Call pk) initState

/-- The full walk with `SetupCfgWalker`'s keyword processor. -/
def runSetupCfgWalker (calls : List CallNode) : WState :=
  runWalk processSetupKeywordCfg calls

/-- The full walk with `PyProjectTomlWalker`'s keyword processor. -/
def runPyProjectTomlWalker (calls : List CallNode) : WState :=
  runWalk processSetupKeywordToml calls

/-! ## Post-processing (`get_output`) -/

/-- A value of a post-processed section: `SetupCfgWalker.get_output` can put a
plain value (or `None`) where `write` expects a section table. -/
inductive SectVal where
  | none
  | table (row : Row)
  | val (v : PyVal)

/-- `Walker.get_output`: `deepcopy(dict(self.output))` — a deep copy of the
model, which is the identity in this pure embedding (so serialization can
never mutate the walker's internal model). -/
def walkerGetOutput (m : Model) : List (String × SectVal) :=
  m.map (fun skv => (skv.1, SectVal.table skv.2))

/-- `SetupCfgWalker.get_output`: on the copied model, set
`config["options.entry_points"] = config.get("options", {}).pop("entry_points", None)`.
The `pop` mutates the copied `"options"` table in place (when it exists);
when `"options"` is absent the `pop` acts on a fresh empty dict and no
`"options"` section is created. -/
def setupCfgGetOutput (m : Model) : List (String × SectVal) :=
  match alLookup m "options" with
  | Option.none => alInsert (walkerGetOutput m) "options.entry_points" SectVal.none
  | some opts =>
    let base := alInsert (walkerGetOutput m) "options"
      (SectVal.table (alErase opts "entry_points"))
    alInsert base "options.entry_points"
      (match alLookup opts "entry_points" with
       | some v => SectVal.val v
       | Option.none => SectVal.none)

/-! ## The flat (`setup.cfg`) serializer -/

/-- Python truthiness of a section value (`if not data: continue`). -/
def sectTruthy : SectVal → Bool
  | .none => false
  | .table row => !row.isEmpty
  | .val v => pyTruthy v

/-- The lines printed by `Walker.write` for one key of one section:
`key = str(value)` for a `str`/`bool`/`int` value, `key =` followed by one
indented `str(atom)` per line for a list, and a comment line for anything
else (that branch also mirrors the message to stderr via the module-level
`warn`; only the printed lines are modelled). -/
def entryLines (sec : String) (indent : Nat) (k : String) (v : PyVal) :
    List String :=
  match v with
  | .str s => [k ++ " = " ++ s]
  | .bool b => [k ++ " = " ++ pyStr (.bool b)]
  | .int n => [k ++ " = " ++ pyStr (.int n)]
  | .list xs =>
    (k ++ " =") :: xs.map (fun a => String.mk (List.replicate indent ' ') ++ pyStr a)
  | _ => ["# Non-serializable value " ++ sec ++ "." ++ k]

/-- The data lines of one section, in key order. -/
def renderEntries (sec : String) (indent : Nat) : Row → List String
  | [] => []
  | (k, v) :: rest => entryLines sec indent k v ++ renderEntries sec indent rest

/-- One section as printed: header, entries, then the blank line printed by
the trailing `print(file=file)`. -/
def sectionLines (sec : String) (indent : Nat) (row : Row) : List String :=
  ("[" ++ sec ++ "]") :: (renderEntries sec indent row ++ [""])

/-- The section loop of `Walker.write`: falsy sections are skipped; a
non-table section value (possible after `SetupCfgWalker.get_output`
relocation of a non-dict `entry_points` value) makes `data.items()` raise
`AttributeError`, which the program does not catch. -/
def writeSections (indent : Nat) : List (String × SectVal) → Except String (List String)
  | [] => .ok []
  | (sec, data) :: rest =>
    if sectTruthy data then
      match data with
      | .table row => do
        let tl ← writeSections indent rest
        pure (sectionLines sec indent row ++ tl)
      | .val (.dict kvs) => do
        let tl ← writeSections indent rest
        pure (sectionLines sec indent kvs ++ tl)
      | _ => .error "AttributeError: object has no attribute items"
    else writeSections indent rest

/-- `Walker.write` on an already post-processed model: the section lines
followed by the collected warnings, each indented with `"# "`. -/
def writeLines (config : List (String × SectVal)) (warnings : List String)
    (indent : Nat := 4) : Except String (List String) := do
  let ls ← writeSections indent config
  pure (ls ++ warnings.map (pythonIndent "# "))

/-- `SetupCfgWalker.write`: post-process with `get_output`, then render. -/
def setupCfgWriteLines (st : WState) (indent : Nat := 4) :
    Except String (List String) :=
  writeLines (setupCfgGetOutput st.output) st.warnings indent

/-! ## A reference reader for the flat format

Used only to state round-trip properties of the flat serializer: it parses a
rendered section back into a row, reading scalars and atoms back as strings.
-/

/-- Find the first `" = "` separator in a line, splitting it into key text and
value text. -/
def splitKVChars : List Char → Option (List Char × List Char)
  | [] => Option.none
  | c :: rest =>
    if c = ' ' ∧ rest.take 2 = ['=', ' '] then some ([], rest.drop 2)
    else (splitKVChars rest).map (fun kv => (c :: kv.1, kv.2))

/-- Recognize a list-header line `key ++ " ="` (ending exactly there). -/
def listHeaderKey : List Char → Option (List Char)
  | [] => Option.none
  | c :: rest =>
    if c = ' ' ∧ rest = ['='] then some []
    else (listHeaderKey rest).map (c :: ·)

/-- A continuation (atom) line: starts with a space. -/
def lineIndented (l : String) : Bool := l.data.head? = some ' '

/-- State of the reference reader's single pass: the row read so far, plus an
open `key =` list (its key and the atoms collected so far), if any. -/
abbrev ReadState := Row × Option (String × List PyVal)

/-- Close the open list, if any, appending it to the row. -/
def flushRead (st : ReadState) : Row :=
  match st.2 with
  | some ka => st.1 ++ [(ka.1, .list ka.2)]
  | Option.none => st.1

/-- Read a line that starts an entry: a `key = value` line becomes a string
scalar, a `key =` header opens a list, anything else (comments, blanks) is
skipped. -/
def readLineStart (row : Row) (l : String) : ReadState :=
  match splitKVChars l.data with
  | some kv => (row ++ [(String.mk kv.1, .str (String.mk kv.2))], Option.none)
  | Option.none =>
    match listHeaderKey l.data with
    | some k => (row, some (String.mk k, []))
    | Option.none => (row, Option.none)

/-- One line of the reader: with an open list, an indented line is one of its
atoms (at the serializer's default indent of four spaces); a non-indented
line closes the list and is then read as an entry start. -/
def readStep (st : ReadState) (l : String) : ReadState :=
  match st.2 with
  | some ka =>
    if lineIndented l then
      (st.1, some (ka.1, ka.2 ++ [.str (String.mk (l.data.drop 4))]))
    else readLineStart (flushRead st) l
  | Option.none => readLineStart st.1 l

/-- Read the body of a rendered section back into a row. -/
def readEntries (ls : List String) : Row :=
  flushRead (ls.foldl readStep ([], Option.none))

/-- Read one rendered section back: the bracketed header line gives the
section name, the remaining lines the row. -/
def readSection (ls : List String) : Option (String × Row) :=
  match ls with
  | l :: rest =>
    match l.data with
    | '[' :: more =>
      if more.getLast? = some ']' then
        some (String.mk more.dropLast, readEntries rest)
      else Option.none
    | _ => Option.none
  | [] => Option.none

/-- Keys that survive the flat-format round-trip: nonempty, no space (so the
`" = "` separator is unambiguous), no newline. -/
def wfKey (k : String) : Bool :=
  !k.data.isEmpty && k.data.all (fun c => c != ' ' && c != '\n')

/-- A scalar string that renders on a single line. -/
def wfScalarStr (s : String) : Bool := s.data.all (fun c => c != '\n')

/-- An entry whose rendering the reference reader can invert: a string scalar
or a list of single-line strings. -/
def wfEntry (k : String) (v : PyVal) : Bool :=
  wfKey k &&
    match v with
    | .str s => wfScalarStr s
    | .list xs =>
      xs.all (fun x => match x with | .str s => wfScalarStr s | _ => false)
    | _ => false

/-- A row of round-trippable entries. -/
def wfRow (row : Row) : Bool := row.all (fun kv => wfEntry kv.1 kv.2)

/-! ## Basic lemmas about the association-list operations -/

/-- The model holds a value for `key` in section `sec`. -/
def modelHasKey (m : Model) (sec key : String) : Bool :=
  match alLookup m sec with
  | some row => (alLookup row key).isSome
  | Option.none => false

theorem alLookup_alInsert_self (l : List (String × α)) (k : String) (v : α) :
    alLookup (alInsert l k v) k = some v := by
  induction l with
  | nil => simp [alInsert, alLookup]
  | cons kv rest ih =>
    obtain ⟨k', w⟩ := kv
    by_cases h : k' = k
    · subst h; simp [alInsert, alLookup]
    · simp [alInsert, alLookup, h, ih]

theorem alLookup_alInsert_ne (l : List (String × α)) (k k' : String) (v : α)
    (h : k' ≠ k) : alLookup (alInsert l k v) k' = alLookup l k' := by
  have hkk : ¬ k = k' := fun hh => h hh.symm
  induction l with
  | nil => simp [alInsert, alLookup, hkk]
  | cons kv rest ih =>
    obtain ⟨k'', w⟩ := kv
    by_cases h2 : k'' = k
    · simp [alInsert, alLookup, h2, hkk]
    · by_cases h3 : k'' = k'
      · simp [alInsert, alLookup, h2, h3, h]
      · simp [alInsert, alLookup, h2, h3, ih]

theorem alLookup_alInsert_isSome (l : List (String × α)) (k k' : String) (v : α)
    (h : (alLookup l k').isSome = true) :
    (alLookup (alInsert l k v) k').isSome = true := by
  by_cases hk : k' = k
  · subst hk; simp [alLookup_alInsert_self]
  · rw [alLookup_alInsert_ne l k k' v hk]; exact h

theorem alLookup_eq_none_of_not_mem (l : List (String × α)) (k : String)
    (h : k ∉ l.map Prod.fst) : alLookup l k = Option.none := by
  induction l with
  | nil => rfl
  | cons kv rest ih =>
    obtain ⟨k', w⟩ := kv
    simp only [List.map_cons, List.mem_cons] at h
    push_neg at h
    simp only [alLookup, if_neg (fun hh : k' = k => h.1 (hh ▸ rfl))]
    exact ih h.2

theorem alLookup_alErase_self_of_nodup (l : List (String × α)) (k : String)
    (h : (l.map Prod.fst).Nodup) : alLookup (alErase l k) k = Option.none := by
  induction l with
  | nil => rfl
  | cons kv rest ih =>
    obtain ⟨k', w⟩ := kv
    simp only [List.map_cons, List.nodup_cons] at h
    by_cases hk : k' = k
    · subst hk
      simp only [alErase, if_pos rfl]
      exact alLookup_eq_none_of_not_mem rest k' h.1
    · simp only [alErase, if_neg hk, alLookup, if_neg hk]
      exact ih h.2

theorem alLookup_append_left (l1 l2 : List (String × α)) (k : String) (r : α)
    (h : alLookup l1 k = some r) : alLookup (l1 ++ l2) k = some r := by
  induction l1 with
  | nil => simp [alLookup] at h
  | cons kv rest ih =>
    obtain ⟨k', w⟩ := kv
    simp only [alLookup] at h ⊢
    by_cases hk : k' = k
    · simpa [hk] using h
    · simp only [if_neg hk] at h ⊢; exact ih h

theorem alLookup_append_of_none (l1 l2 : List (String × α)) (k : String)
    (h : alLookup l1 k = Option.none) : alLookup (l1 ++ l2) k = alLookup l2 k := by
  induction l1 with
  | nil => rfl
  | cons kv rest ih =>
    obtain ⟨k', w⟩ := kv
    simp only [alLookup] at h ⊢
    by_cases hk : k' = k
    · simp [hk] at h
    · simp only [if_neg hk] at h ⊢; exact ih h

theorem modelHasKey_modelInsert_self (m : Model) (sec key : String) (v : PyVal) :
    modelHasKey (modelInsert m sec key v) sec key = true := by
  unfold modelInsert
  cases h : alLookup m sec with
  | none =>
    simp only [modelHasKey]
    rw [alLookup_append_of_none m _ sec h]
    simp [alLookup, alLookup_alInsert_self]
  | some row =>
    simp only [modelHasKey]
    rw [alLookup_alInsert_self]
    simp [alLookup_alInsert_self]

theorem modelHasKey_modelInsert_mono (m : Model) (sec key sec' key' : String)
    (v : PyVal) (h : modelHasKey m sec' key' = true) :
    modelHasKey (modelInsert m sec key v) sec' key' = true := by
  unfold modelHasKey at h
  unfold modelInsert
  cases hs : alLookup m sec with
  | none =>
    by_cases he : sec' = sec
    · subst he; rw [hs] at h; simp at h
    · cases hr : alLookup m sec' with
      | none => rw [hr] at h; simp at h
      | some row =>
        rw [hr] at h
        simp only [modelHasKey]
        rw [alLookup_append_left m _ sec' row hr]
        exact h
  | some row =>
    by_cases he : sec' = sec
    · subst he
      rw [hs] at h
      simp only [modelHasKey]
      rw [alLookup_alInsert_self]
      exact alLookup_alInsert_isSome row key key' v h
    · simp only [modelHasKey]
      rw [alLookup_alInsert_ne m sec sec' _ he]
      exact h

/-! ## Claim C7: call classification by suffix -/

theorem foldl_visit_Call_id (pk : WState → String → Expr → WState × Except String Unit)
    (calls : List CallNode) (h : ∀ c ∈ calls, strEndsWith c.funcSrc "setup" = false) :
    ∀ st, calls.foldl (visit_Call pk) st = st := by
  induction calls with
  | nil => intro st; rfl
  | cons c rest ih =>
    intro st
    have hc := h c (List.mem_cons_self c rest)
    simp only [List.foldl_cons, visit_Call, hc, Bool.false_eq_true, if_false]
    exact ih (fun c' hc' => h c' (List.mem_cons_of_mem c hc')) st

/-- C7 counterexample: package-discovery classification checks only the suffix
`"find_packages"`; a call whose callee source text is the namespace variant
`"find_namespace_packages"` is not classified as a discovery call (the claim
says it must be), and the walker consequently records a resolution diagnostic
instead of the discovery directive. -/
theorem C7_counterexample :
    is_find_packages_call
      (.call "find_namespace_packages()" "find_namespace_packages" [] []) = false ∧
    (runSetupCfgWalker [⟨"setup",
        [("packages",
          .call "find_namespace_packages()" "find_namespace_packages" [] [])]⟩]).output
      = [] ∧
    (runSetupCfgWalker [⟨"setup",
        [("packages",
          .call "find_namespace_packages()" "find_namespace_packages" [] [])]⟩]).warnings
      = [unableMsg "packages"
          (.call "find_namespace_packages()" "find_namespace_packages" [] [])
          "malformed node or string: find_namespace_packages()"] := by
  refine ⟨by decide, rfl, rfl⟩

/-- C7 (amended): a call node is dispatched to `process_setup_call` exactly
when its callee source text ends with `"setup"`, and classified as a
package-discovery call exactly when it is a call node whose callee source
text ends with `"find_packages"` (the spelling `"find_namespace_packages"`
does not match this suffix); both classifications are pure. -/
theorem C7_call_classification :
    (∀ pk st c, strEndsWith c.funcSrc "setup" = true →
        visit_Call pk st c = process_setup_call pk st c.kwargs) ∧
    (∀ pk st c, strEndsWith c.funcSrc "setup" = false → visit_Call pk st c = st) ∧
    (∀ src funcSrc args kwargs,
        is_find_packages_call (Expr.call src funcSrc args kwargs)
          = strEndsWith funcSrc "find_packages") ∧
    (∀ src v, is_find_packages_call (Expr.lit src v) = false) ∧
    (∀ src, is_find_packages_call (Expr.name src) = false) ∧
    (∀ src, is_find_packages_call (Expr.other src) = false) := by
  refine ⟨?_, ?_, ?_, ?_, ?_, ?_⟩ <;> intros <;>
    simp_all [visit_Call, is_find_packages_call]

/-- Witness for C7: the classification theorem applied at concrete inputs. -/
theorem C7_call_classification_witness :
    visit_Call processSetupKeywordCfg initState ⟨"print", []⟩ = initState ∧
    is_find_packages_call
      (Expr.call "find_packages()" "setuptools.find_packages" [] []) = true := by
  constructor
  · exact C7_call_classification.2.1 processSetupKeywordCfg initState ⟨"print", []⟩
      (by decide)
  · rw [C7_call_classification.2.2.1]; decide

/-! ## Claim C8: tolerance of input with no matching call -/

/-- C8: if no visited call's callee source text ends with `"setup"`, the walk
completes (it is a total fold) and the resulting configuration model is empty
— no sections, no keys, and no warnings. -/
theorem C8_no_matching_call_empty_model
    (pk : WState → String → Expr → WState × Except String Unit)
    (calls : List CallNode)
    (h : ∀ c ∈ calls, strEndsWith c.funcSrc "setup" = false) :
    runWalk pk calls = initState ∧ (runWalk pk calls).output = [] ∧
    (runWalk pk calls).warnings = [] := by
  have := foldl_visit_Call_id pk calls h initState
  refine ⟨this, ?_, ?_⟩ <;> rw [show runWalk pk calls = initState from this] <;> rfl

/-- Witness for C8: a source with two calls, neither of which matches the
entry-point suffix. -/
theorem C8_no_matching_call_empty_model_witness :
    runWalk processSetupKeywordCfg [⟨"find_packages", []⟩, ⟨"print", []⟩] = initState ∧
    (runWalk processSetupKeywordCfg [⟨"find_packages", []⟩, ⟨"print", []⟩]).output = [] ∧
    (runWalk processSetupKeywordCfg [⟨"find_packages", []⟩, ⟨"print", []⟩]).warnings = [] :=
  C8_no_matching_call_empty_model processSetupKeywordCfg
    [⟨"find_packages", []⟩, ⟨"print", []⟩] (by decide)

/-! ## Claim C2: unrecognized-key handling -/

/-- C2 counterexample: `"frobnicate"` is in neither lookup table, yet the
pyproject.toml walker inserts it into the model and records no diagnostic on
either channel — the claimed invariant does not hold for both walkers. -/
theorem C2_counterexample :
    alLookup metadata_keys "frobnicate" = Option.none ∧
    alLookup options_keys "frobnicate" = Option.none ∧
    (runPyProjectTomlWalker [⟨"setup", [("frobnicate", .lit "1" (.int 1))]⟩]).output
      = [("project", [("frobnicate", .int 1)])] ∧
    (runPyProjectTomlWalker [⟨"setup", [("frobnicate", .lit "1" (.int 1))]⟩]).warnings
      = [] ∧
    (runPyProjectTomlWalker [⟨"setup", [("frobnicate", .lit "1" (.int 1))]⟩]).stderrLog
      = [] :=
  ⟨rfl, rfl, rfl, rfl, rfl⟩

/-- C2 (amended): in the setup.cfg walker, an argument name in neither lookup
table produces exactly one `No output mapping` stderr diagnostic (the
module-level `warn`, not appended to the trailing `self.warnings` list) and
no model insertion; the pyproject.toml walker performs no lookup-table check
and inserts every resolvable argument under `"project"`. -/
theorem C2_unmapped_key_handling (st : WState) (arg : String) (v : Expr)
    (hm : alLookup metadata_keys arg = Option.none)
    (ho : alLookup options_keys arg = Option.none) :
    processSetupKeywordCfg st arg v
      = ({ st with stderrLog := st.stderrLog ++ ["No output mapping for " ++ arg] },
         .ok ()) ∧
    (∀ val, get_value v = .ok val →
      processSetupKeywordToml st arg v
        = ({ st with output := modelInsert st.output "project" arg val }, .ok ())) := by
  constructor
  · simp [processSetupKeywordCfg, lookupOutputKey, hm, ho, WState.warnStderr]
  · intro val hv
    simp [processSetupKeywordToml, hv]

/-- Witness for C2: the amended theorem at the concrete argument
`frobnicate=1`. -/
theorem C2_unmapped_key_handling_witness :
    processSetupKeywordCfg initState "frobnicate" (.lit "1" (.int 1))
      = ({ output := [], warnings := [],
           stderrLog := ["No output mapping for frobnicate"] }, .ok ()) ∧
    processSetupKeywordToml initState "frobnicate" (.lit "1" (.int 1))
      = ({ output := [("project", [("frobnicate", .int 1)])], warnings := [],
           stderrLog := [] }, .ok ()) := by
  have h := C2_unmapped_key_handling initState "frobnicate" (.lit "1" (.int 1)) rfl rfl
  exact ⟨h.1, h.2 (.int 1) rfl⟩

/-! ## Claim C3: deferred (attribute) references -/

/-- C3 counterexample: the pyproject.toml walker resolves a bare-name value to
the `attr:`-tagged string and inserts it as ordinary data under `"project"`,
with no diagnostic on either channel — the hierarchical format does not turn
it into a diagnostic as claimed. -/
theorem C3_counterexample :
    (runPyProjectTomlWalker [⟨"setup", [("version", .name "__version__")]⟩]).output
      = [("project", [("version", .str "attr:__version__")])] ∧
    (runPyProjectTomlWalker [⟨"setup", [("version", .name "__version__")]⟩]).warnings
      = [] ∧
    (runPyProjectTomlWalker [⟨"setup", [("version", .name "__version__")]⟩]).stderrLog
      = [] :=
  ⟨rfl, rfl, rfl⟩

/-- C3 (amended): both walkers resolve a bare-name reference to the
`attr:`-prefixed token built from its source text and insert it as string
data; the flat serializer renders it as `key = attr:<source>`, and the
pyproject.toml walker likewise inserts it as data (recording no diagnostic),
rather than reporting it as claimed. -/
theorem C3_attribute_reference (st : WState) (arg : String) (src : String) :
    get_value (.name src) = .ok (.str ("attr:" ++ src)) ∧
    processSetupKeywordToml st arg (.name src)
      = ({ st with output := modelInsert st.output "project" arg (.str ("attr:" ++ src)) },
         .ok ()) ∧
    (∀ sec key, lookupOutputKey arg = some (sec, key) →
      processSetupKeywordCfg st arg (.name src)
        = ({ st with output := modelInsert st.output sec key (.str ("attr:" ++ src)) },
           .ok ())) ∧
    (∀ sec key indent,
      entryLines sec indent key (.str ("attr:" ++ src))
        = [key ++ " = " ++ ("attr:" ++ src)]) := by
  refine ⟨rfl, rfl, ?_, fun sec key indent => rfl⟩
  intro sec key hl
  simp [processSetupKeywordCfg, hl, get_value, insertValue]

/-- Witness for C3: the amended theorem at `version=__version__`. -/
theorem C3_attribute_reference_witness :
    processSetupKeywordCfg initState "version" (.name "__version__")
      = ({ output := [("metadata", [("version", .str "attr:__version__")])],
           warnings := [], stderrLog := [] }, .ok ()) :=
  (C3_attribute_reference initState "version" "__version__").2.2.1 "metadata" "version" rfl

/-! ## Claim C6: `entry_points` relocation -/

/-- C6: if an `entry_points` field was inserted under `"options"`, the
post-processed model maps the dedicated top-level key
`"options.entry_points"` to that value, and the `"options"` table of the
post-processed model no longer contains the `entry_points` key (the
`Nodup` hypothesis is the representation invariant of a Python dict). -/
theorem C6_entry_points_relocation (m : Model) (opts : Row) (v : PyVal)
    (hnodup : (opts.map Prod.fst).Nodup)
    (hm : alLookup m "options" = some opts)
    (hv : alLookup opts "entry_points" = some v) :
    alLookup (setupCfgGetOutput m) "options.entry_points" = some (SectVal.val v) ∧
    alLookup (setupCfgGetOutput m) "options"
      = some (SectVal.table (alErase opts "entry_points")) ∧
    alLookup (alErase opts "entry_points") "entry_points" = Option.none := by
  have hne : "options" ≠ "options.entry_points" := by decide
  refine ⟨?_, ?_, ?_⟩
  · simp only [setupCfgGetOutput, hm, hv]
    exact alLookup_alInsert_self _ _ _
  · simp only [setupCfgGetOutput, hm, hv]
    rw [alLookup_alInsert_ne _ _ _ _ hne]
    exact alLookup_alInsert_self _ _ _
  · exact alLookup_alErase_self_of_nodup opts "entry_points" hnodup

/-- Witness for C6: a model whose `options` section holds an `entry_points`
value next to another options key. -/
theorem C6_entry_points_relocation_witness :
    alLookup (setupCfgGetOutput
        [("options", [("entry_points", PyVal.str "x"), ("zip_safe", PyVal.bool true)])])
        "options.entry_points" = some (SectVal.val (PyVal.str "x")) ∧
    alLookup (setupCfgGetOutput
        [("options", [("entry_points", PyVal.str "x"), ("zip_safe", PyVal.bool true)])])
        "options"
      = some (SectVal.table (alErase
          [("entry_points", PyVal.str "x"), ("zip_safe", PyVal.bool true)]
          "entry_points")) ∧
    alLookup (alErase [("entry_points", PyVal.str "x"), ("zip_safe", PyVal.bool true)]
        "entry_points") "entry_points" = Option.none :=
  C6_entry_points_relocation
    [("options", [("entry_points", PyVal.str "x"), ("zip_safe", PyVal.bool true)])]
    [("entry_points", PyVal.str "x"), ("zip_safe", PyVal.bool true)]
    (PyVal.str "x") (by decide) rfl rfl

/-! ## Claim C10: the `options.entry_points` key is always present -/

/-- C10: `SetupCfgWalker.get_output` always produces the key
`"options.entry_points"`; when no `entry_points` field was ever inserted its
value is `None`, and the flat serializer skips a `None`-valued section
because it is falsy.  (`get_output` deep-copies before mutating, which the
pure embedding renders as `setupCfgGetOutput` being a function of the model:
the walker's own model is untouched by serialization.) -/
theorem C10_entry_points_default (m : Model)
    (h : ∀ opts, alLookup m "options" = some opts →
          alLookup opts "entry_points" = Option.none) :
    (alLookup (setupCfgGetOutput m) "options.entry_points").isSome = true ∧
    alLookup (setupCfgGetOutput m) "options.entry_points" = some SectVal.none ∧
    (∀ indent sec rest,
      writeSections indent ((sec, SectVal.none) :: rest) = writeSections indent rest) := by
  have hval : alLookup (setupCfgGetOutput m) "options.entry_points" = some SectVal.none := by
    unfold setupCfgGetOutput
    cases hm : alLookup m "options" with
    | none => exact alLookup_alInsert_self _ _ _
    | some opts =>
      simp only [h opts hm]
      exact alLookup_alInsert_self _ _ _
  refine ⟨by rw [hval]; rfl, hval, ?_⟩
  intro indent sec rest
  simp [writeSections, sectTruthy]

/-- Witness for C10: a model with only a metadata section. -/
theorem C10_entry_points_default_witness :
    (alLookup (setupCfgGetOutput [("metadata", [("name", PyVal.str "pkg")])])
        "options.entry_points").isSome = true ∧
    alLookup (setupCfgGetOutput [("metadata", [("name", PyVal.str "pkg")])])
        "options.entry_points" = some SectVal.none ∧
    writeSections 4 [("options.entry_points", SectVal.none)] = writeSections 4 [] :=
  have h10 := C10_entry_points_default [("metadata", [("name", PyVal.str "pkg")])]
    (fun _opts hh => Option.noConfusion hh)
  ⟨h10.1, h10.2.1, h10.2.2 4 "options.entry_points" []⟩

/-! ## Claim C4: discovery-scope rejection -/

/-- C4: processing `packages=find_packages(...)` where the bound `where`
argument is anything other than the string `"."` records exactly one
diagnostic (via `self.warn`, so it reaches both channels), inserts no
`"packages"` key, and leaves the model — including the
`options.packages.find` section — untouched: the `where` check precedes
every insertion. -/
theorem C4_discovery_scope_rejection (st : WState) (src funcSrc : String)
    (args : List Expr) (kwargs : List (String × Expr))
    (fpArgs : List (String × PyVal)) (w : PyVal)
    (hends : strEndsWith funcSrc "find_packages" = true)
    (hbind : call_to_args args kwargs = .ok fpArgs)
    (hw : alLookup fpArgs "where" = some w)
    (hnd : isDotString w = false) :
    process_setup_call processSetupKeywordCfg st
        [("packages", .call src funcSrc args kwargs)]
      = st.warnSelf (unableMsg "packages" (.call src funcSrc args kwargs)
          ("Unable to process find_packages(where=" ++ pyRepr w ++ ", ...)")) ∧
    (process_setup_call processSetupKeywordCfg st
        [("packages", .call src funcSrc args kwargs)]).output = st.output := by
  have hlk : lookupOutputKey "packages" = some ("options", "packages") := rfl
  have hmain : process_setup_call processSetupKeywordCfg st
      [("packages", .call src funcSrc args kwargs)]
      = st.warnSelf (unableMsg "packages" (.call src funcSrc args kwargs)
          ("Unable to process find_packages(where=" ++ pyRepr w ++ ", ...)")) := by
    simp only [process_setup_call, List.foldl_cons, List.foldl_nil, setupCallStep,
      processSetupKeywordCfg, hlk, process_find_packages, hbind, hw, hends,
      Option.getD_some, hnd, Bool.false_eq_true, if_false]
    simp
  refine ⟨hmain, ?_⟩
  rw [hmain]
  rfl

/-- Witness for C4: `packages=find_packages(where="src")`. -/
theorem C4_discovery_scope_rejection_witness :
    process_setup_call processSetupKeywordCfg initState
        [("packages", .call "find_packages(where=\"src\")" "find_packages" []
            [("where", .lit "\"src\"" (.str "src"))])]
      = initState.warnSelf (unableMsg "packages"
          (.call "find_packages(where=\"src\")" "find_packages" []
            [("where", .lit "\"src\"" (.str "src"))])
          "Unable to process find_packages(where='src', ...)") ∧
    (process_setup_call processSetupKeywordCfg initState
        [("packages", .call "find_packages(where=\"src\")" "find_packages" []
            [("where", .lit "\"src\"" (.str "src"))])]).output = [] :=
  C4_discovery_scope_rejection initState "find_packages(where=\"src\")"
    "find_packages" [] [("where", .lit "\"src\"" (.str "src"))]
    [("where", .str "src")] (.str "src") (by decide) rfl rfl rfl

/-! ## Claim C5: discovery-call success path -/

/-- C5 counterexample: `include=[]` is a literal include list with default
`where`, yet the `if value:` truthiness check skips the copy — `packages` is
set to the `"find:"` directive but the empty list is not copied and no
`options.packages.find` section is created, so the claim's unconditional
"the include list is copied" fails. -/
theorem C5_counterexample :
    (process_setup_call processSetupKeywordCfg initState
        [("packages", .call "find_packages(include=[])" "find_packages" []
            [("include", .lit "[]" (.list []))])]).output
      = [("options", [("packages", PyVal.str "find:")])] ∧
    alLookup (process_setup_call processSetupKeywordCfg initState
        [("packages", .call "find_packages(include=[])" "find_packages" []
            [("include", .lit "[]" (.list []))])]).output "options.packages.find"
      = Option.none ∧
    (process_setup_call processSetupKeywordCfg initState
        [("packages", .call "find_packages(include=[])" "find_packages" []
            [("include", .lit "[]" (.list []))])]).warnings = [] :=
  ⟨rfl, rfl, rfl⟩

/-- C5 (amended): processing `packages=find_packages(...)` with a default `where`
(absent or `"."`), a literal non-empty `include` list, and an `exclude` that
is either absent or a literal non-empty list, sets `"packages"` to the
`"find:"` discovery directive and copies the lists, in their original order,
into the `options.packages.find` section (include first, then exclude); an
empty literal list fails the `if value:` truthiness check and is skipped, as
the counterexample shows. -/
theorem C5_discovery_success (st : WState) (src funcSrc : String)
    (args : List Expr) (kwargs : List (String × Expr))
    (fpArgs : List (String × PyVal)) (xs : List PyVal) (exc? : Option (List PyVal))
    (hends : strEndsWith funcSrc "find_packages" = true)
    (hbind : call_to_args args kwargs = .ok fpArgs)
    (hw : alLookup fpArgs "where" = Option.none ∨
          alLookup fpArgs "where" = some (.str "."))
    (hinc : alLookup fpArgs "include" = some (.list xs))
    (hxs : xs ≠ [])
    (hexc : alLookup fpArgs "exclude" = exc?.map PyVal.list)
    (hys : ∀ ys, exc? = some ys → ys ≠ []) :
    process_setup_call processSetupKeywordCfg st
        [("packages", .call src funcSrc args kwargs)]
      = WState.mk
          (modelInsert
            (match exc? with
             | some ys =>
               modelInsert
                 (modelInsert st.output "options.packages.find" "include" (.list xs))
                 "options.packages.find" "exclude" (.list ys)
             | Option.none =>
               modelInsert st.output "options.packages.find" "include" (.list xs))
            "options" "packages" (.str "find:"))
          st.warnings st.stderrLog := by
  have hlk : lookupOutputKey "packages" = some ("options", "packages") := rfl
  have hxe : xs.isEmpty = false := by
    cases xs with
    | nil => exact absurd rfl hxs
    | cons a l => rfl
  have hwh : (alLookup fpArgs "where").getD (.str ".") = .str "." := by
    rcases hw with h | h <;> rw [h] <;> rfl
  have hfind : process_find_packages st.output args kwargs
      = (match exc? with
         | some ys =>
           modelInsert
             (modelInsert st.output "options.packages.find" "include" (.list xs))
             "options.packages.find" "exclude" (.list ys)
         | Option.none =>
           modelInsert st.output "options.packages.find" "include" (.list xs),
         .ok (.str "find:")) := by
    cases exc? with
    | none =>
      simp only [Option.map_none'] at hexc
      simp only [process_find_packages, hbind, hwh, findInsertStep, hinc, hexc,
        pyTruthy, hxe, Bool.not_false, if_true, pyListOf, isDotString]
      rfl
    | some ys =>
      have hyse : ys.isEmpty = false := by
        cases ys with
        | nil => exact absurd rfl (hys [] rfl)
        | cons a l => rfl
      simp only [Option.map_some'] at hexc
      simp only [process_find_packages, hbind, hwh, findInsertStep, hinc, hexc,
        pyTruthy, hxe, hyse, Bool.not_false, if_true, pyListOf, isDotString]
      rfl
  simp only [process_setup_call, List.foldl_cons, List.foldl_nil, setupCallStep,
    processSetupKeywordCfg, hlk, hends, hfind]
  simp

/-- Witness for C5: `packages=find_packages(include=["pkg", "pkg.sub"])`. -/
theorem C5_discovery_success_witness :
    process_setup_call processSetupKeywordCfg initState
        [("packages", .call "find_packages(include=[\"pkg\", \"pkg.sub\"])"
            "find_packages" []
            [("include", .lit "[\"pkg\", \"pkg.sub\"]"
                (.list [.str "pkg", .str "pkg.sub"]))])]
      = { output := [("options.packages.find",
            [("include", PyVal.list [.str "pkg", .str "pkg.sub"])]),
          ("options", [("packages", PyVal.str "find:")])],
          warnings := [], stderrLog := [] } := by
  have h := C5_discovery_success initState
    "find_packages(include=[\"pkg\", \"pkg.sub\"])" "find_packages" []
    [("include", .lit "[\"pkg\", \"pkg.sub\"]" (.list [.str "pkg", .str "pkg.sub"]))]
    [("include", PyVal.list [.str "pkg", .str "pkg.sub"])]
    [.str "pkg", .str "pkg.sub"] Option.none (by decide) rfl (Or.inl rfl) rfl
    (by simp) rfl (fun ys hy => Option.noConfusion hy)
  rw [h]
  rfl

/-! ## Claim C1: per-field failure isolation

The exception component of `SetupCfgWalker.process_setup_keyword` does not
depend on the incoming state (the state is only written, never read, on the
way to a raise), so a keyword's outcome can be described by a state-free
function, `kwOutcomeCfg`. -/

/-- Forget a resolved value, keeping only success or the exception. -/
def exceptUnit : Except String PyVal → Except String Unit
  | .error e => .error e
  | .ok _ => .ok ()

/-- The success/exception outcome of one `findInsertStep`, without the model. -/
def findStepOutcome (fpArgs : List (String × PyVal)) (key : String) :
    Except String Unit :=
  match alLookup fpArgs key with
  | Option.none => .ok ()
  | some v =>
    if pyTruthy v then
      match pyListOf v with
      | .error e => .error e
      | .ok _ => .ok ()
    else .ok ()

/-- The success/exception outcome of `process_find_packages`, without the
model. -/
def findCallOutcome (args : List Expr) (kwargs : List (String × Expr)) :
    Except String PyVal :=
  match call_to_args args kwargs with
  | .error e => .error e
  | .ok fpArgs =>
    let wh := (alLookup fpArgs "where").getD (.str ".")
    if isDotString wh then
      match findStepOutcome fpArgs "include" with
      | .error e => .error e
      | .ok () =>
        match findStepOutcome fpArgs "exclude" with
        | .error e => .error e
        | .ok () => .ok (.str "find:")
    else .error ("Unable to process find_packages(where=" ++ pyRepr wh ++ ", ...)")

/-- The success/exception outcome of `SetupCfgWalker.process_setup_keyword`. -/
def kwOutcomeCfg (arg : String) (v : Expr) : Except String Unit :=
  match lookupOutputKey arg with
  | Option.none => .ok ()
  | some (sec, key) =>
    match v with
    | .call csrc funcSrc args kwargs =>
      if sec = "options" && key = "packages" && strEndsWith funcSrc "find_packages" then
        exceptUnit (findCallOutcome args kwargs)
      else exceptUnit (get_value (.call csrc funcSrc args kwargs))
    | v => exceptUnit (get_value v)

theorem insertValue_snd (st : WState) (sec key : String) (r : Except String PyVal) :
    (insertValue st sec key r).2 = exceptUnit r := by
  cases r <;> rfl

theorem findInsertStep_snd (m : Model) (fpArgs : List (String × PyVal)) (key : String) :
    (findInsertStep m fpArgs key).2 = findStepOutcome fpArgs key := by
  unfold findInsertStep findStepOutcome
  cases alLookup fpArgs key with
  | none => rfl
  | some v =>
    by_cases h : pyTruthy v = true
    · simp only [h, if_true]
      cases pyListOf v <;> rfl
    · simp only [Bool.not_eq_true] at h
      simp only [h, Bool.false_eq_true, if_false]

theorem process_find_packages_snd (m : Model) (args : List Expr)
    (kwargs : List (String × Expr)) :
    (process_find_packages m args kwargs).2 = findCallOutcome args kwargs := by
  unfold process_find_packages findCallOutcome
  cases call_to_args args kwargs with
  | error e => rfl
  | ok fpArgs =>
    by_cases hd : isDotString ((alLookup fpArgs "where").getD (.str ".")) = true
    · simp only [hd, if_true]
      have h1 := findInsertStep_snd m fpArgs "include"
      rcases hA : findInsertStep m fpArgs "include" with ⟨m1, r1⟩
      rw [hA] at h1
      rw [← h1]
      cases r1 with
      | error e => rfl
      | ok u =>
        cases u
        have h2 := findInsertStep_snd m1 fpArgs "exclude"
        rcases hB : findInsertStep m1 fpArgs "exclude" with ⟨m2, r2⟩
        rw [hB] at h2
        simp only [hB, ← h2]
        cases r2 <;> rfl
    · simp only [Bool.not_eq_true] at hd
      simp only [hd, Bool.false_eq_true, if_false]

theorem processSetupKeywordCfg_snd (st : WState) (arg : String) (v : Expr) :
    (processSetupKeywordCfg st arg v).2 = kwOutcomeCfg arg v := by
  unfold processSetupKeywordCfg kwOutcomeCfg
  cases lookupOutputKey arg with
  | none => rfl
  | some sk =>
    obtain ⟨sec, key⟩ := sk
    cases v with
    | call csrc funcSrc args kwargs =>
      by_cases hc : (sec = "options" && key = "packages"
          && strEndsWith funcSrc "find_packages") = true
      · simp only [hc, if_true]
        have h := process_find_packages_snd st.output args kwargs
        rcases hA : process_find_packages st.output args kwargs with ⟨mm, r⟩
        rw [hA] at h
        rw [← h]
        cases r <;> rfl
      · simp only [Bool.not_eq_true] at hc
        simp only [hc, Bool.false_eq_true, if_false]
        exact insertValue_snd st sec key _
    | lit src val => exact insertValue_snd st sec key _
    | name src => exact insertValue_snd st sec key _
    | other src => exact insertValue_snd st sec key _

theorem processSetupKeywordCfg_warnings (st : WState) (arg : String) (v : Expr) :
    (processSetupKeywordCfg st arg v).1.warnings = st.warnings := by
  unfold processSetupKeywordCfg
  have hins : ∀ sec key r, (insertValue st sec key r).1.warnings = st.warnings := by
    intro sec key r; cases r <;> rfl
  cases lookupOutputKey arg with
  | none => rfl
  | some sk =>
    obtain ⟨sec, key⟩ := sk
    cases v with
    | call csrc funcSrc args kwargs =>
      by_cases hc : (sec = "options" && key = "packages"
          && strEndsWith funcSrc "find_packages") = true
      · simp only [hc, if_true]
        rcases hA : process_find_packages st.output args kwargs with ⟨mm, r⟩
        cases r <;> rfl
      · simp only [Bool.not_eq_true] at hc
        simp only [hc, Bool.false_eq_true, if_false]
        exact hins sec key _
    | lit src val => exact hins sec key _
    | name src => exact hins sec key _
    | other src => exact hins sec key _

theorem modelHasKey_findInsertStep (m : Model) (fpArgs : List (String × PyVal))
    (key s k : String) (h : modelHasKey m s k = true) :
    modelHasKey (findInsertStep m fpArgs key).1 s k = true := by
  unfold findInsertStep
  cases alLookup fpArgs key with
  | none => exact h
  | some v =>
    by_cases ht : pyTruthy v = true
    · simp only [ht, if_true]
      cases pyListOf v with
      | error e => exact h
      | ok xs => exact modelHasKey_modelInsert_mono m _ _ s k _ h
    · simp only [Bool.not_eq_true] at ht
      simp only [ht, Bool.false_eq_true, if_false]
      exact h

theorem modelHasKey_process_find_packages (m : Model) (args : List Expr)
    (kwargs : List (String × Expr)) (s k : String)
    (h : modelHasKey m s k = true) :
    modelHasKey (process_find_packages m args kwargs).1 s k = true := by
  unfold process_find_packages
  cases call_to_args args kwargs with
  | error e => exact h
  | ok fpArgs =>
    by_cases hd : isDotString ((alLookup fpArgs "where").getD (.str ".")) = true
    · simp only [hd, if_true]
      have h1 := modelHasKey_findInsertStep m fpArgs "include" s k h
      rcases hA : findInsertStep m fpArgs "include" with ⟨m1, r1⟩
      rw [hA] at h1
      cases r1 with
      | error e => exact h1
      | ok u =>
        cases u
        have h2 := modelHasKey_findInsertStep m1 fpArgs "exclude" s k h1
        rcases hB : findInsertStep m1 fpArgs "exclude" with ⟨m2, r2⟩
        rw [hB] at h2
        simp only [hB]
        cases r2 <;> exact h2
    · simp only [Bool.not_eq_true] at hd
      simp only [hd, Bool.false_eq_true, if_false]
      exact h

theorem modelHasKey_processSetupKeywordCfg (st : WState) (arg : String) (v : Expr)
    (s k : String) (h : modelHasKey st.output s k = true) :
    modelHasKey (processSetupKeywordCfg st arg v).1.output s k = true := by
  unfold processSetupKeywordCfg
  have hins : ∀ sec key r, modelHasKey (insertValue st sec key r).1.output s k = true := by
    intro sec key r
    cases r with
    | error e => exact h
    | ok val => exact modelHasKey_modelInsert_mono st.output sec key s k val h
  cases lookupOutputKey arg with
  | none => exact h
  | some sk2 =>
    obtain ⟨sec, key⟩ := sk2
    cases v with
    | call csrc funcSrc args kwargs =>
      by_cases hc : (sec = "options" && key = "packages"
          && strEndsWith funcSrc "find_packages") = true
      · simp only [hc, if_true]
        have hpf := modelHasKey_process_find_packages st.output args kwargs s k h
        rcases hA : process_find_packages st.output args kwargs with ⟨mm, r⟩
        rw [hA] at hpf
        cases r with
        | error e => exact hpf
        | ok d => exact modelHasKey_modelInsert_mono mm sec key s k d hpf
      · simp only [Bool.not_eq_true] at hc
        simp only [hc, Bool.false_eq_true, if_false]
        exact hins sec key _
    | lit src val => exact hins sec key _
    | name src => exact hins sec key _
    | other src => exact hins sec key _

theorem modelHasKey_setupCallStep (st : WState) (kw : String × Expr)
    (s k : String) (h : modelHasKey st.output s k = true) :
    modelHasKey (setupCallStep processSetupKeywordCfg st kw).output s k = true := by
  unfold setupCallStep
  have hp := modelHasKey_processSetupKeywordCfg st kw.1 kw.2 s k h
  rcases hA : processSetupKeywordCfg st kw.1 kw.2 with ⟨st', r⟩
  rw [hA] at hp
  cases r with
  | error e => exact hp
  | ok u => cases u; exact hp

theorem modelHasKey_foldl (l : List (String × Expr)) (st : WState)
    (s k : String) (h : modelHasKey st.output s k = true) :
    modelHasKey ((l.foldl (setupCallStep processSetupKeywordCfg) st)).output s k
      = true := by
  induction l generalizing st with
  | nil => exact h
  | cons a l' ih =>
    exact ih (setupCallStep processSetupKeywordCfg st a)
      (modelHasKey_setupCallStep st a s k h)

theorem processSetupKeywordCfg_inserts (st : WState) (arg : String) (v : Expr)
    (sec key : String) (hlk : lookupOutputKey arg = some (sec, key))
    (hok : kwOutcomeCfg arg v = .ok ()) :
    modelHasKey (processSetupKeywordCfg st arg v).1.output sec key = true := by
  unfold kwOutcomeCfg at hok
  rw [hlk] at hok
  unfold processSetupKeywordCfg
  rw [hlk]
  have hins : ∀ r, exceptUnit r = .ok () →
      modelHasKey (insertValue st sec key r).1.output sec key = true := by
    intro r hr
    cases r with
    | error e => exact absurd hr (by simp [exceptUnit])
    | ok val =>
      show modelHasKey (modelInsert st.output sec key val) sec key = true
      exact modelHasKey_modelInsert_self st.output sec key val
  cases v with
  | call csrc funcSrc args kwargs =>
    by_cases hc : (sec = "options" && key = "packages"
        && strEndsWith funcSrc "find_packages") = true
    · simp only [hc, if_true] at hok ⊢
      have hsnd := process_find_packages_snd st.output args kwargs
      rcases hA : process_find_packages st.output args kwargs with ⟨mm, r⟩
      rw [hA] at hsnd
      cases r with
      | error e => rw [← hsnd] at hok; exact absurd hok (by simp [exceptUnit])
      | ok d =>
        show modelHasKey (modelInsert mm sec key d) sec key = true
        exact modelHasKey_modelInsert_self mm sec key d
    · simp only [Bool.not_eq_true] at hc
      simp only [hc, Bool.false_eq_true, if_false] at hok ⊢
      exact hins _ hok
  | lit src val => exact hins _ hok
  | name src => exact hins _ hok
  | other src => exact hins _ hok

theorem setupCallStep_of_ok (st : WState) (kw : String × Expr)
    (hok : kwOutcomeCfg kw.1 kw.2 = .ok ()) :
    setupCallStep processSetupKeywordCfg st kw
      = (processSetupKeywordCfg st kw.1 kw.2).1 := by
  unfold setupCallStep
  have hsnd := processSetupKeywordCfg_snd st kw.1 kw.2
  rcases hA : processSetupKeywordCfg st kw.1 kw.2 with ⟨st', r⟩
  rw [hA] at hsnd
  rw [hok] at hsnd
  cases r with
  | error e => exact absurd hsnd (by simp)
  | ok u => cases u; rfl

theorem setupCallStep_of_error (st : WState) (kw : String × Expr) (e : String)
    (herr : kwOutcomeCfg kw.1 kw.2 = .error e) :
    setupCallStep processSetupKeywordCfg st kw
      = ((processSetupKeywordCfg st kw.1 kw.2).1).warnSelf
          (unableMsg kw.1 kw.2 e) := by
  unfold setupCallStep
  have hsnd := processSetupKeywordCfg_snd st kw.1 kw.2
  rcases hA : processSetupKeywordCfg st kw.1 kw.2 with ⟨st', r⟩
  rw [hA] at hsnd
  rw [herr] at hsnd
  cases r with
  | error e' => cases hsnd; rfl
  | ok u => exact absurd hsnd (by simp)

theorem foldl_good_warnings (l : List (String × Expr)) (st : WState)
    (h : ∀ kw ∈ l, kwOutcomeCfg kw.1 kw.2 = .ok ()) :
    (l.foldl (setupCallStep processSetupKeywordCfg) st).warnings = st.warnings := by
  induction l generalizing st with
  | nil => rfl
  | cons a l' ih =>
    rw [List.foldl_cons,
      ih (setupCallStep processSetupKeywordCfg st a)
        (fun kw hkw => h kw (List.mem_cons_of_mem a hkw)),
      setupCallStep_of_ok st a (h a (List.mem_cons_self a l')),
      processSetupKeywordCfg_warnings]

theorem foldl_good_inserts (l : List (String × Expr)) (st : WState)
    (h : ∀ kw ∈ l, kwOutcomeCfg kw.1 kw.2 = .ok ()) :
    ∀ kw ∈ l, ∀ sec key, lookupOutputKey kw.1 = some (sec, key) →
      modelHasKey ((l.foldl (setupCallStep processSetupKeywordCfg) st)).output
        sec key = true := by
  induction l generalizing st with
  | nil => intro kw hkw; exact absurd hkw (List.not_mem_nil kw)
  | cons a l' ih =>
    intro kw hkw sec key hlk
    rw [List.foldl_cons]
    rcases List.mem_cons.mp hkw with rfl | hmem
    · refine modelHasKey_foldl l' _ sec key ?_
      rw [setupCallStep_of_ok st kw (h kw (List.mem_cons_self kw l'))]
      exact processSetupKeywordCfg_inserts st kw.1 kw.2 sec key hlk
        (h kw (List.mem_cons_self kw l'))
    · exact ih (setupCallStep processSetupKeywordCfg st a)
        (fun kw' hkw' => h kw' (List.mem_cons_of_mem a hkw')) kw hmem sec key hlk

/-- C1: in a setup call whose keyword arguments are `pre ++ [bad] ++ post`,
where every keyword in `pre` and `post` processes without raising and the
`bad` keyword's resolution raises `e`, the walk never aborts: exactly one
diagnostic — carrying the failing field's name and the `"|  "`-indented
source text of its value expression — is appended to `self.warnings`, and
every mappable keyword of `pre` and `post` still has its key in the model. -/
theorem C1_per_field_isolation (st : WState) (pre post : List (String × Expr))
    (badArg : String) (badV : Expr) (e : String)
    (hgood : ∀ kw ∈ pre ++ post, kwOutcomeCfg kw.1 kw.2 = .ok ())
    (hbad : kwOutcomeCfg badArg badV = .error e) :
    (process_setup_call processSetupKeywordCfg st
        (pre ++ (badArg, badV) :: post)).warnings
      = st.warnings ++ [unableMsg badArg badV e] ∧
    (∀ kw ∈ pre ++ post, ∀ sec key, lookupOutputKey kw.1 = some (sec, key) →
      modelHasKey (process_setup_call processSetupKeywordCfg st
          (pre ++ (badArg, badV) :: post)).output sec key = true) := by
  have hgpre : ∀ kw ∈ pre, kwOutcomeCfg kw.1 kw.2 = .ok () :=
    fun kw hkw => hgood kw (List.mem_append_left post hkw)
  have hgpost : ∀ kw ∈ post, kwOutcomeCfg kw.1 kw.2 = .ok () :=
    fun kw hkw => hgood kw (List.mem_append_right pre hkw)
  unfold process_setup_call
  rw [List.foldl_append, List.foldl_cons]
  set st1 := pre.foldl (setupCallStep processSetupKeywordCfg) st with hst1
  set st2 := setupCallStep processSetupKeywordCfg st1 (badArg, badV) with hst2
  constructor
  · rw [foldl_good_warnings post st2 hgpost, hst2,
      setupCallStep_of_error st1 (badArg, badV) e hbad]
    show ((processSetupKeywordCfg st1 badArg badV).1.warnings
        ++ [unableMsg badArg badV e]) = st.warnings ++ [unableMsg badArg badV e]
    rw [processSetupKeywordCfg_warnings, hst1, foldl_good_warnings pre st hgpre]
  · intro kw hkw sec key hlk
    rcases List.mem_append.mp hkw with hmem | hmem
    · refine modelHasKey_foldl post st2 sec key ?_
      refine modelHasKey_setupCallStep st1 (badArg, badV) sec key ?_
      exact foldl_good_inserts pre st hgpre kw hmem sec key hlk
    · exact foldl_good_inserts post st2 hgpost kw hmem sec key hlk

/-- Witness for C1: `name` and `version` around a failing `license` keyword
whose value is an unrecognized call. -/
theorem C1_per_field_isolation_witness :
    (process_setup_call processSetupKeywordCfg initState
        ([("name", .lit "\"pkg\"" (.str "pkg"))]
          ++ ("license", .other "open(\"LICENSE\").read()")
            :: [("version", .lit "\"1.0\"" (.str "1.0"))])).warnings
      = [unableMsg "license" (.other "open(\"LICENSE\").read()")
          "malformed node or string: open(\"LICENSE\").read()"] ∧
    modelHasKey (process_setup_call processSetupKeywordCfg initState
        ([("name", .lit "\"pkg\"" (.str "pkg"))]
          ++ ("license", .other "open(\"LICENSE\").read()")
            :: [("version", .lit "\"1.0\"" (.str "1.0"))])).output
        "metadata" "name" = true ∧
    modelHasKey (process_setup_call processSetupKeywordCfg initState
        ([("name", .lit "\"pkg\"" (.str "pkg"))]
          ++ ("license", .other "open(\"LICENSE\").read()")
            :: [("version", .lit "\"1.0\"" (.str "1.0"))])).output
        "metadata" "version" = true := by
  have h := C1_per_field_isolation initState
    [("name", .lit "\"pkg\"" (.str "pkg"))]
    [("version", .lit "\"1.0\"" (.str "1.0"))]
    "license" (.other "open(\"LICENSE\").read()")
    "malformed node or string: open(\"LICENSE\").read()"
    (by
      intro kw hkw
      rcases List.mem_cons.mp hkw with rfl | hkw2
      · rfl
      · rcases List.mem_cons.mp hkw2 with rfl | hkw3
        · rfl
        · exact absurd hkw3 (List.not_mem_nil kw))
    rfl
  refine ⟨h.1, ?_, ?_⟩
  · exact h.2 ("name", .lit "\"pkg\"" (.str "pkg"))
      (List.mem_append_left _ (List.mem_cons_self _ _)) "metadata" "name" rfl
  · exact h.2 ("version", .lit "\"1.0\"" (.str "1.0"))
      (List.mem_append_right _ (List.mem_cons_self _ _)) "metadata" "version" rfl

/-! ## Claim C9: round-trip lemmas for the flat serializer -/

theorem splitKVChars_boundary (k v : List Char) (hk : ∀ c ∈ k, c ≠ ' ') :
    splitKVChars (k ++ ' ' :: '=' :: ' ' :: v) = some (k, v) := by
  induction k with
  | nil => simp [splitKVChars]
  | cons c k' ih =>
    have hc : ¬(c = ' ' ∧ ((k' ++ ' ' :: '=' :: ' ' :: v).take 2 = ['=', ' '])) :=
      fun hh => hk c (List.mem_cons_self c k') hh.1
    simp only [List.cons_append, splitKVChars, List.append_eq]
    rw [if_neg hc, ih (fun c' hc' => hk c' (List.mem_cons_of_mem c hc'))]
    rfl

theorem splitKVChars_header (k : List Char) (hk : ∀ c ∈ k, c ≠ ' ') :
    splitKVChars (k ++ [' ', '=']) = Option.none := by
  induction k with
  | nil => decide
  | cons c k' ih =>
    have hc : ¬(c = ' ' ∧ ((k' ++ [' ', '=']).take 2 = ['=', ' '])) :=
      fun hh => hk c (List.mem_cons_self c k') hh.1
    simp only [List.cons_append, splitKVChars, List.append_eq]
    rw [if_neg hc, ih (fun c' hc' => hk c' (List.mem_cons_of_mem c hc'))]
    rfl

theorem listHeaderKey_boundary (k : List Char) (hk : ∀ c ∈ k, c ≠ ' ') :
    listHeaderKey (k ++ [' ', '=']) = some k := by
  induction k with
  | nil => decide
  | cons c k' ih =>
    have hc : ¬(c = ' ' ∧ (k' ++ [' ', '='] = ['='])) :=
      fun hh => hk c (List.mem_cons_self c k') hh.1
    simp only [List.cons_append, listHeaderKey, List.append_eq]
    rw [if_neg hc, ih (fun c' hc' => hk c' (List.mem_cons_of_mem c hc'))]
    rfl

theorem lineIndented_eq_false (l : String) (h : l.data.head? ≠ some ' ') :
    lineIndented l = false := by
  unfold lineIndented
  exact decide_eq_false h

theorem lineIndented_eq_true (l : String) (h : l.data.head? = some ' ') :
    lineIndented l = true := by
  unfold lineIndented
  exact decide_eq_true h

theorem wfKey_spec (k : String) (h : wfKey k = true) :
    k.data ≠ [] ∧ ∀ c ∈ k.data, c ≠ ' ' := by
  unfold wfKey at h
  simp only [Bool.and_eq_true, Bool.not_eq_true', List.all_eq_true] at h
  obtain ⟨hne, hall⟩ := h
  refine ⟨fun hnil => by simp [hnil] at hne, fun c hc => ?_⟩
  have := hall c hc
  simp only [Bool.and_eq_true, bne_iff_ne] at this
  exact this.1

theorem key_line_head (k : String) (l : List Char) (hk : wfKey k = true) :
    (k.data ++ l).head? ≠ some ' ' := by
  obtain ⟨hne, hsp⟩ := wfKey_spec k hk
  cases hd : k.data with
  | nil => exact absurd hd hne
  | cons c cs =>
    intro hcon
    simp only [List.cons_append, List.head?_cons, Option.some.injEq] at hcon
    exact hsp c (hd ▸ List.mem_cons_self c cs) hcon

theorem atom_line_head (s : String) :
    ((String.mk (List.replicate 4 ' ') ++ s)).data.head? = some ' ' := by
  rw [String.data_append]
  rfl

theorem atom_line_drop (s : String) :
    ((String.mk (List.replicate 4 ' ') ++ s)).data.drop 4 = s.data := by
  rw [String.data_append]
  have h4 : (List.replicate 4 ' ' : List Char).length = 4 := List.length_replicate 4 ' '
  calc ((String.mk (List.replicate 4 ' ')).data ++ s.data).drop 4
      = ((List.replicate 4 ' ' : List Char) ++ s.data).drop
          (List.replicate 4 ' ' : List Char).length := by rw [h4]
    _ = s.data := List.drop_left _ _

/-- The first line of any rendered entry with a well-formed key does not start
with a space: it starts with the key's first character or with `#`. -/
theorem entry_head_not_indented (sec : String) (k : String) (v : PyVal)
    (hk : wfKey k = true) (l : String)
    (hl : (entryLines sec 4 k v).head? = some l) : lineIndented l = false := by
  cases v with
  | str s =>
    simp only [entryLines, List.head?_cons, Option.some.injEq] at hl
    subst hl
    refine lineIndented_eq_false _ ?_
    rw [String.data_append, String.data_append, List.append_assoc]
    exact key_line_head k _ hk
  | bool b =>
    simp only [entryLines, List.head?_cons, Option.some.injEq] at hl
    subst hl
    refine lineIndented_eq_false _ ?_
    rw [String.data_append, String.data_append, List.append_assoc]
    exact key_line_head k _ hk
  | int n =>
    simp only [entryLines, List.head?_cons, Option.some.injEq] at hl
    subst hl
    refine lineIndented_eq_false _ ?_
    rw [String.data_append, String.data_append, List.append_assoc]
    exact key_line_head k _ hk
  | list xs =>
    simp only [entryLines, List.head?_cons, Option.some.injEq] at hl
    subst hl
    refine lineIndented_eq_false _ ?_
    rw [String.data_append]
    exact key_line_head k _ hk
  | none =>
    simp only [entryLines, List.head?_cons, Option.some.injEq] at hl
    subst hl
    refine lineIndented_eq_false _ ?_
    intro hcon
    rw [String.data_append, String.data_append, String.data_append,
      show ("# Non-serializable value ").data
        = '#' :: (" Non-serializable value ").data from rfl] at hcon
    simp only [List.cons_append, List.head?_cons, Option.some.injEq] at hcon
    exact absurd hcon (by decide)
  | dict kvs =>
    simp only [entryLines, List.head?_cons, Option.some.injEq] at hl
    subst hl
    refine lineIndented_eq_false _ ?_
    intro hcon
    rw [String.data_append, String.data_append, String.data_append,
      show ("# Non-serializable value ").data
        = '#' :: (" Non-serializable value ").data from rfl] at hcon
    simp only [List.cons_append, List.head?_cons, Option.some.injEq] at hcon
    exact absurd hcon (by decide)

/-- The first line after a well-formed rendered row (its own first entry line,
or the first tail line) is not indented. -/
theorem renderEntries_head_not_indented (sec : String) (row : Row)
    (tail : List String) (hwf : wfRow row = true)
    (htail : ∀ l, tail.head? = some l → lineIndented l = false) :
    ∀ l, (renderEntries sec 4 row ++ tail).head? = some l → lineIndented l = false := by
  cases row with
  | nil => simpa [renderEntries] using htail
  | cons kv rest =>
    obtain ⟨k, v⟩ := kv
    intro l hl
    have hk : wfKey k = true := by
      unfold wfRow at hwf
      have := (List.all_eq_true.mp hwf) (k, v) (List.mem_cons_self _ _)
      unfold wfEntry at this
      simp only [Bool.and_eq_true] at this
      exact this.1
    have hne : entryLines sec 4 k v ≠ [] := by cases v <;> simp [entryLines]
    obtain ⟨a, as, hav⟩ := List.exists_cons_of_ne_nil hne
    rw [renderEntries, hav] at hl
    simp only [List.cons_append, List.append_assoc, List.head?_cons,
      Option.some.injEq] at hl
    refine entry_head_not_indented sec k v hk l ?_
    rw [hav, List.head?_cons, hl]

theorem string_mk_data (s : String) : String.mk s.data = s := rfl

theorem readLineStart_prefix (q row : Row) (l : String) :
    readLineStart (q ++ row) l
      = ((q ++ (readLineStart row l).1), (readLineStart row l).2) := by
  unfold readLineStart
  cases splitKVChars l.data with
  | some kv => simp
  | none =>
    cases listHeaderKey l.data with
    | some k => simp
    | none => simp

theorem flushRead_prefix (q : Row) (s1 : Row) (s2 : Option (String × List PyVal)) :
    flushRead (q ++ s1, s2) = q ++ flushRead (s1, s2) := by
  cases s2 <;> simp [flushRead]

theorem readStep_prefix (q : Row) (s1 : Row) (s2 : Option (String × List PyVal))
    (l : String) :
    readStep (q ++ s1, s2) l
      = ((q ++ (readStep (s1, s2) l).1), (readStep (s1, s2) l).2) := by
  cases s2 with
  | none => exact readLineStart_prefix q s1 l
  | some ka =>
    by_cases hl : lineIndented l = true
    · simp [readStep, hl]
    · rw [Bool.not_eq_true] at hl
      simp only [readStep, hl, Bool.false_eq_true, if_false]
      rw [show flushRead (q ++ s1, some ka) = q ++ flushRead (s1, some ka) from
        flushRead_prefix q s1 (some ka)]
      exact readLineStart_prefix q (flushRead (s1, some ka)) l

theorem foldl_readStep_prefix (ls : List String) :
    ∀ (s1 : Row) (s2 : Option (String × List PyVal)) (q : Row),
    ls.foldl readStep (q ++ s1, s2)
      = ((q ++ (ls.foldl readStep (s1, s2)).1), (ls.foldl readStep (s1, s2)).2) := by
  induction ls with
  | nil => intro s1 s2 q; rfl
  | cons l ls' ih =>
    intro s1 s2 q
    rw [List.foldl_cons, List.foldl_cons, readStep_prefix q s1 s2 l]
    exact ih (readStep (s1, s2) l).1 (readStep (s1, s2) l).2 q

theorem fold_atoms (xs : List PyVal)
    (h : ∀ x ∈ xs,
      (match x with | PyVal.str s => wfScalarStr s | _ => false) = true) :
    ∀ (r : Row) (k : String) (acc : List PyVal) (next : List String),
      ((xs.map (fun a => String.mk (List.replicate 4 ' ') ++ pyStr a) ++ next).foldl
          readStep (r, some (k, acc)))
        = next.foldl readStep (r, some (k, acc ++ xs)) := by
  induction xs with
  | nil => intro r k acc next; rw [List.map_nil, List.nil_append, List.append_nil]
  | cons x xs' ih =>
    intro r k acc next
    have hx := h x (List.mem_cons_self x xs')
    cases x with
    | str s =>
      rw [List.map_cons, List.cons_append, List.foldl_cons]
      have hstep : readStep (r, some (k, acc))
          (String.mk (List.replicate 4 ' ') ++ pyStr (PyVal.str s))
          = (r, some (k, acc ++ [PyVal.str s])) := by
        simp only [readStep]
        rw [if_pos (lineIndented_eq_true _ (atom_line_head (pyStr (PyVal.str s))))]
        rw [atom_line_drop]
        rfl
      rw [hstep, ih (fun x' hx' => h x' (List.mem_cons_of_mem _ hx')) r k
        (acc ++ [PyVal.str s]) next, List.append_assoc]
      rfl
    | none => simp at hx
    | bool b => simp at hx
    | int n => simp at hx
    | list ys => simp at hx
    | dict kvs => simp at hx

theorem readStep_close (r : Row) (k : String) (acc : List PyVal) (l : String)
    (hl : lineIndented l = false) :
    readStep (r, some (k, acc)) l
      = readStep (r ++ [(k, .list acc)], Option.none) l := by
  simp [readStep, hl, flushRead]

theorem entryLines_ne_nil (sec : String) (indent : Nat) (k : String) (v : PyVal) :
    entryLines sec indent k v ≠ [] := by
  cases v <;> simp [entryLines]

/-- The reader's fold over a rendered well-formed row followed by `tail`
(whose first line, if any, is not indented) is the fold over `tail` alone
starting from the row. -/
theorem fold_render (sec : String) (tail : List String)
    (htail : ∀ l, tail.head? = some l → lineIndented l = false) (row : Row)
    (hwf : wfRow row = true) :
    ∀ r : Row,
      flushRead ((renderEntries sec 4 row ++ tail).foldl readStep (r, Option.none))
        = flushRead (tail.foldl readStep (r ++ row, Option.none)) := by
  induction row with
  | nil => intro r; rw [renderEntries, List.nil_append, List.append_nil]
  | cons kv rest ih =>
    intro r
    obtain ⟨k, v⟩ := kv
    unfold wfRow at hwf
    rw [List.all_cons, Bool.and_eq_true] at hwf
    obtain ⟨hent, hrest⟩ := hwf
    unfold wfEntry at hent
    rw [Bool.and_eq_true] at hent
    obtain ⟨hk, hshape⟩ := hent
    have hspaces : ∀ c ∈ k.data, c ≠ ' ' := (wfKey_spec k hk).2
    have ihr := ih hrest
    cases v with
    | str s =>
      have hdata : (k ++ " = " ++ s).data
          = k.data ++ (' ' :: '=' :: ' ' :: s.data) := by
        rw [String.data_append, String.data_append, List.append_assoc]
        rfl
      rw [renderEntries]
      simp only [entryLines, List.cons_append, List.append_assoc, List.nil_append]
      rw [List.foldl_cons,
        show readStep (r, Option.none) (k ++ " = " ++ s)
            = (r ++ [(k, PyVal.str s)], Option.none) by
          unfold readStep readLineStart
          rw [hdata, splitKVChars_boundary k.data s.data hspaces],
        ihr (r ++ [(k, PyVal.str s)]), ← List.append_cons]
    | list xs =>
      have hdata : (k ++ " =").data = k.data ++ [' ', '='] := by
        rw [String.data_append]
      rw [renderEntries]
      simp only [entryLines, List.cons_append, List.append_assoc, List.nil_append]
      rw [List.foldl_cons,
        show readStep (r, Option.none) (k ++ " =") = (r, some (k, [])) by
          unfold readStep readLineStart
          rw [hdata, splitKVChars_header k.data hspaces,
            listHeaderKey_boundary k.data hspaces],
        fold_atoms xs (List.all_eq_true.mp hshape) r k []
          (renderEntries sec 4 rest ++ tail), List.nil_append]
      cases hls : renderEntries sec 4 rest ++ tail with
      | nil =>
        obtain ⟨hrn, htn⟩ := List.append_eq_nil.mp hls
        have hrestnil : rest = [] := by
          cases rest with
          | nil => rfl
          | cons kv2 r2 =>
            obtain ⟨k2, v2⟩ := kv2
            simp only [renderEntries] at hrn
            exact absurd (List.append_eq_nil.mp hrn).1 (entryLines_ne_nil sec 4 k2 v2)
        subst hrestnil
        subst htn
        rfl
      | cons l0 more =>
        have hl0 : lineIndented l0 = false :=
          renderEntries_head_not_indented sec rest tail hrest htail l0 (by
            rw [hls]
            rfl)
        rw [List.foldl_cons, readStep_close r k xs l0 hl0, ← List.foldl_cons,
          ← hls, ihr (r ++ [(k, PyVal.list xs)]), ← List.append_cons]
    | none => simp at hshape
    | bool b => simp at hshape
    | int n => simp at hshape
    | dict kvs => simp at hshape

/-- The reference reader inverts the flat serializer's entry rendering on
well-formed rows. -/
theorem readEntries_renderEntries (sec : String) (row : Row) (tail : List String)
    (hwf : wfRow row = true)
    (htail : ∀ l, tail.head? = some l → lineIndented l = false) :
    readEntries (renderEntries sec 4 row ++ tail) = row ++ readEntries tail := by
  unfold readEntries
  have hA := fold_render sec tail htail row hwf []
  rw [List.nil_append] at hA
  rw [hA]
  have hp := foldl_readStep_prefix tail [] Option.none row
  rw [List.append_nil] at hp
  rw [hp, flushRead_prefix]

/-- C9 counterexample: a literal dict value — `project_urls`, a recognized
metadata field — is rendered by the flat serializer as a
`# Non-serializable value` comment, not as data, so parsing the rendered
section back yields a row without that key: the claimed round-trip fails for
literal dict values. -/
theorem C9_counterexample :
    sectionLines "metadata" 4
        [("project_urls", .dict [("Homepage", .str "https://example.com")])]
      = ["[metadata]", "# Non-serializable value metadata.project_urls", ""] ∧
    readSection (sectionLines "metadata" 4
        [("project_urls", .dict [("Homepage", .str "https://example.com")])])
      = some ("metadata", []) :=
  ⟨rfl, rfl⟩

/-- C9 (amended): for rows of string scalars and lists of strings (single-line
values, keys without spaces — which covers every name in the lookup tables),
the flat serializer's rendered section parses back to exactly the same row;
integer and boolean scalars render as their `str()` text and read back as
that text, and literal dict values are not rendered as data at all. -/
theorem C9_flat_roundtrip (sec : String) (row : Row) (hwf : wfRow row = true) :
    readSection (sectionLines sec 4 row) = some (sec, row) := by
  have hhdr : ("[" ++ sec ++ "]").data = '[' :: (sec.data ++ [']']) := by
    rw [String.data_append, String.data_append]
    rfl
  simp only [sectionLines, readSection]
  rw [hhdr]
  simp only [List.getLast?_concat, List.dropLast_concat, string_mk_data,
    Option.some.injEq, if_pos]
  rw [readEntries_renderEntries sec row [""] hwf
    (fun l hl => by
      simp only [List.head?_cons, Option.some.injEq] at hl
      subst hl
      decide)]
  rw [show readEntries [""] = [] from rfl, List.append_nil]

/-- Witness for C9: a section with a string scalar and a string list. -/
theorem C9_flat_roundtrip_witness :
    wfRow [("name", PyVal.str "pkg"),
           ("keywords", PyVal.list [.str "a", .str "b"])] = true ∧
    readSection (sectionLines "metadata" 4
        [("name", PyVal.str "pkg"), ("keywords", PyVal.list [.str "a", .str "b"])])
      = some ("metadata",
          [("name", PyVal.str "pkg"),
           ("keywords", PyVal.list [.str "a", .str "b"])]) :=
  ⟨by decide, C9_flat_roundtrip "metadata" _ (by decide)⟩


end Setuppy2Cfg
